import Mathlib

/-!
The eva-dashboard daemon: the sampling loop and the day-average store.

A shallow embedding of `main.go`:

* `GetLastSubmitCount`, the RPC sampler (the network is an input);
* `LoadSubmitCount`, the accumulator goroutine: the endpoint loop
  (`queryLoop`), one iteration of the round loop (`roundBody`), the round loop
  (`roundsLoop`), one day cycle (`dayCycle`) and the outer `for` loop;
* the `/daycnt/{day}` and `/lastcnt` handlers registered by `Start`;
* the two library operations it relies on, `binary.BigEndian.PutUint64` /
  `binary.BigEndian.Uint64` and the `Put` / `Get` of the key-value store.

`uint64` values are natural numbers, every addition is reduced modulo `2 ^ 64`
as Go does, and a run-time panic is an error value of type `Fault`.
-/

namespace EvaDashboard

/-! ## Constants and globals of `main.go` -/

/-- Go's `time.Minute`, in nanoseconds. -/
def Minute : Nat := 60 * 1000000000

/-- Source: `const QueryWait = time.Minute * 10`. -/
def QueryWait : Nat := Minute * 10

/-- Source: `const DayTimes = 24 * 6`. -/
def DayTimes : Nat := 24 * 6

/-- Source: `var RpcUrl = []string{...}`. -/
def RpcUrl : List String :=
  ["http://seed1.evanesco.org:8546", "http://seed2.evanesco.org:8546",
   "http://seed3.evanesco.org:8546", "ws://seed4.evanesco.org:7778",
   "http://seed5.evanesco.org:8546"]

/-- Run-time panics of the Go program that the modelled code can raise. -/
inductive Fault where
  /-- Fault `runtime error: integer divide by zero`. -/
  | divideByZero
  /-- Fault `runtime error: index out of range`. -/
  | indexOutOfRange
  deriving DecidableEq, Repr

/-- Go's `a / b` on `uint64`: panics when the divisor is zero, truncates otherwise. -/
def divU64 (a b : Nat) : Except Fault Nat :=
  if b = 0 then .error .divideByZero else .ok (a / b)

/-! ## `encoding/binary` (Go standard library) -/

/-- A byte slice; every element is meant to be below `256`. -/
abbrev Bytes := List Nat

/-- Go's conversion `byte(v)`: the low eight bits. -/
def byte (v : Nat) : Nat := v % 256

/-- Go's `make([]byte, n)`. -/
def makeBytes (n : Nat) : Bytes := List.replicate n 0

/-- Go's `binary.BigEndian.PutUint64(b, v)`: a bounds check on `b[7]`, then
`b[0] = byte(v >> 56)`, ..., `b[7] = byte(v)`. -/
def PutUint64 (b : Bytes) (v : Nat) : Except Fault Bytes :=
  if b.length < 8 then .error .indexOutOfRange
  else .ok ((((((((b.set 0 (byte (v >>> 56))).set 1 (byte (v >>> 48))).set 2
    (byte (v >>> 40))).set 3 (byte (v >>> 32))).set 4 (byte (v >>> 24))).set 5
    (byte (v >>> 16))).set 6 (byte (v >>> 8))).set 7 (byte v))

/-- Go's `binary.BigEndian.Uint64(b)`: a bounds check on `b[7]`, then
`uint64(b[7]) | uint64(b[6])<<8 | ... | uint64(b[0])<<56`. -/
def Uint64 (b : Bytes) : Except Fault Nat :=
  if b.length < 8 then .error .indexOutOfRange
  else .ok (b.getD 7 0 ||| b.getD 6 0 <<< 8 ||| b.getD 5 0 <<< 16 ||| b.getD 4 0 <<< 24 |||
    b.getD 3 0 <<< 32 ||| b.getD 2 0 <<< 40 ||| b.getD 1 0 <<< 48 ||| b.getD 0 0 <<< 56)

/-! ## The key-value store (`leveldb.DB`) -/

/-- The content of the store: one value per key, most recent write first. -/
structure DB where
  entries : List (String × Bytes)
  deriving DecidableEq, Repr

/-- Errors of the store. -/
inductive DBError where
  /-- Error `leveldb.ErrNotFound`. -/
  | notFound
  deriving DecidableEq, Repr

/-- Store read `db.Get(key, nil)`: the value under `key`, or the not-found error. -/
def DB.Get (db : DB) (key : String) : Except DBError Bytes :=
  match db.entries.lookup key with
  | some v => .ok v
  | none => .error .notFound

/-- Store write `db.Put(key, value, nil)` when it succeeds: `key` now maps to
`value`, an earlier value under `key` is overwritten. -/
def DB.Put (db : DB) (key : String) (value : Bytes) : DB :=
  ⟨(key, value) :: db.entries.filter (fun e => e.1 != key)⟩

/-! ## `fmt.Sprintf("%v", _)` -/

/-- Go's `fmt.Sprintf("%v", n)` for a `uint64`: the decimal digits. -/
def sprintU64 (n : Nat) : String := toString n

/-- Go's `fmt.Sprintf("%v", k)` for an `int` constant. -/
def sprintInt (k : Int) : String := toString k

/-! ## `GetLastSubmitCount` -/

/-- What the network does with one `eth_lastSubmitCount` request. -/
inductive RpcOutcome where
  /-- Case `rpc.Dial(url)` returned an error. -/
  | dialFailed (err : String)
  /-- Case `client.CallContext` returned an error. -/
  | callFailed (err : String)
  /-- The call stored `num` in the result. -/
  | answered (num : Nat)
  deriving DecidableEq, Repr

/-- Source: `func GetLastSubmitCount(url string) (uint64, error)`; `rpc` is the
network at the time of the call. -/
def GetLastSubmitCount (rpc : String → RpcOutcome) (url : String) : Except String Nat :=
  match rpc url with
  | .dialFailed err => .error err
  | .callFailed err => .error err
  | .answered num => .ok num

/-- The network during one round: what the `j`-th call of the round meets. -/
abbrev Network := Nat → String → RpcOutcome

/-! ## `LoadSubmitCount` -/

/-- Observable actions of the accumulator goroutine. -/
inductive Effect where
  /-- One call `GetLastSubmitCount(url)`. -/
  | call (url : String)
  /-- Log `log.Error("Get last submit count err", "url", url, ...)`. -/
  | logError (url : String)
  /-- Pause `time.Sleep(d)`. -/
  | sleep (d : Nat)
  /-- Log `log.Info("submit count day average", "int", dayAvr)`. -/
  | logInfo (dayAvr : Nat)
  /-- Store write `db.Put(key, value, nil)`. -/
  | put (key : String) (value : Bytes)
  /-- Log `log.Error("put day average err", ...)`. -/
  | logPutErr
  deriving DecidableEq, Repr

/-- Locals of one round: `total`, `requestErr`, and the actions so far. -/
structure RoundVars where
  total : Nat
  requestErr : Bool
  effects : List Effect
  deriving DecidableEq, Repr

/-- Source: `for _, url := range RpcUrl { ... }` (lines 140-148); `j` is the
position of `url` in the list. -/
def queryLoop (net : Network) : List String → Nat → RoundVars → RoundVars
  | [], _, r => r
  | url :: rest, j, r =>
    match GetLastSubmitCount (net j) url with
    | .error _ =>
      queryLoop net rest (j + 1)
        { r with requestErr := true, effects := r.effects ++ [.call url, .logError url] }
    | .ok c =>
      queryLoop net rest (j + 1)
        { r with total := (r.total + c) % 2 ^ 64, effects := r.effects ++ [.call url] }

/-- The locals at the start of a round (lines 138-139): `total := uint64(0)`,
`requestErr := false`. -/
def roundStart : RoundVars := { total := 0, requestErr := false, effects := [] }

/-- State of the round loop: the global `LastSubmitCount`, the locals
`dayTotal`, `cnt` and `i`, and the actions of every round run so far. -/
structure Accumulator where
  LastSubmitCount : Nat
  dayTotal : Nat
  cnt : Nat
  i : Nat
  rounds : List (List Effect)
  deriving DecidableEq, Repr

/-- Source: the body of `for i := 0; i < DayTimes; i++` with its post statement
`i++` (lines 138-155); `continue` skips to the post statement. -/
def roundBody (urls : List String) (net : Network) (s : Accumulator) : Accumulator :=
  let r := queryLoop net urls 0 roundStart
  if r.requestErr then
    { s with i := s.i + 1, rounds := s.rounds ++ [r.effects] }
  else
    { LastSubmitCount := r.total
      dayTotal := (s.dayTotal + r.total) % 2 ^ 64
      cnt := (s.cnt + 1) % 2 ^ 64
      i := s.i + 1
      rounds := s.rounds ++ [r.effects ++ [.sleep QueryWait]] }

/-- Source: `for i := 0; i < DayTimes; i++ { ... }` (line 137), run for at most
`fuel` iterations; `net i` is the network during round `i`. -/
def roundsLoop (urls : List String) (net : Nat → Network) : Nat → Accumulator → Accumulator
  | 0, s => s
  | fuel + 1, s =>
    if s.i < DayTimes then roundsLoop urls net fuel (roundBody urls (net s.i) s) else s

/-- The accumulator at the start of a day cycle (lines 135-137), when the global
`LastSubmitCount` holds `last`: `dayTotal := uint64(0)`, `cnt := uint64(0)`, `i := 0`. -/
def dayStart (last : Nat) : Accumulator :=
  { LastSubmitCount := last, dayTotal := 0, cnt := 0, i := 0, rounds := [] }

/-- A reading of `time.Now()`. -/
structure Time where
  year : Nat
  month : Nat
  day : Nat
  deriving DecidableEq, Repr

/-- Source: `fmt.Sprintf("%v-%v-%v", time.Now().Year(), int(time.Now().Month()), time.Now().Day())`. -/
def dayString (t1 t2 t3 : Time) : String :=
  toString t1.year ++ "-" ++ toString t2.month ++ "-" ++ toString t3.day

/-- What one day cycle meets: the network of each round, the three clock
readings of line 161, and whether `db.Put` succeeds. -/
structure DayEnv where
  net : Nat → Network
  now1 : Time
  now2 : Time
  now3 : Time
  putOk : Bool

/-- State shared with the HTTP handlers. -/
structure World where
  LastSubmitCount : Nat
  db : DB
  deriving DecidableEq, Repr

/-- Actions of one day cycle: those of each round, then those of lines 157-166. -/
structure DayLog where
  rounds : List (List Effect)
  final : List Effect
  deriving DecidableEq, Repr

/-- Source: one iteration of the outer `for` of `LoadSubmitCount` (lines 135-166). -/
def dayCycle (urls : List String) (env : DayEnv) (w : World) : Except Fault (World × DayLog) :=
  let s := roundsLoop urls env.net DayTimes (dayStart w.LastSubmitCount)
  match divU64 s.dayTotal s.cnt with
  | .error f => .error f
  | .ok dayAvr =>
    match PutUint64 (makeBytes 8) dayAvr with
    | .error f => .error f
    | .ok avrBytes =>
      let key := dayString env.now1 env.now2 env.now3
      if env.putOk then
        .ok ({ LastSubmitCount := s.LastSubmitCount, db := w.db.Put key avrBytes },
             { rounds := s.rounds, final := [.logInfo dayAvr, .put key avrBytes] })
      else
        .ok ({ LastSubmitCount := s.LastSubmitCount, db := w.db },
             { rounds := s.rounds, final := [.logInfo dayAvr, .put key avrBytes, .logPutErr] })

/-- Source: `func LoadSubmitCount(db *leveldb.DB)`, the first `days` iterations
of its endless outer loop; `envs d` is what day cycle `d` meets. The result is
the shared state and the log of each completed cycle, or the panic that ended
the goroutine. -/
def LoadSubmitCount (urls : List String) (envs : Nat → DayEnv) :
    Nat → World → Except Fault (World × List DayLog)
  | 0, w => .ok (w, [])
  | days + 1, w =>
    match LoadSubmitCount urls envs days w with
    | .error f => .error f
    | .ok (w1, logs) =>
      match dayCycle urls (envs days) w1 with
      | .error f => .error f
      | .ok (w2, log) => .ok (w2, logs ++ [log])

/-! ## The handlers registered by `Start` -/

/-- Source: the `/lastcnt` handler (lines 99-101). -/
def lastCntHandler (w : World) : String := sprintU64 w.LastSubmitCount

/-- Source: the `/daycnt/{day}` handler (lines 103-118); `vars` is `mux.Vars(r)`.
The result is the response body, or the panic raised while serving. -/
def dayCntHandler (db : DB) (vars : List (String × String)) : Except Fault String :=
  match vars.lookup "day" with
  | none => .ok (sprintInt (-1))
  | some day =>
    match db.Get day with
    | .error _ => .ok (sprintInt (-2))
    | .ok num =>
      match Uint64 num with
      | .error f => .error f
      | .ok v => .ok (sprintU64 v)

/-! ## Auxiliary notions used to state the properties -/

/-- The URLs of the sampler calls recorded in a list of actions, in order. -/
def callsOf : List Effect → List String
  | [] => []
  | .call url :: es => url :: callsOf es
  | _ :: es => callsOf es

/-- Rounds of the day cycle still to run: `DayTimes - i`. -/
def roundsLeft (s : Accumulator) : Nat := DayTimes - s.i

/-- What the sampler returns at each call of a round, in list order; the call
for the first URL of the list is call number `j` of the round. -/
def repliesFrom (net : Network) : Nat → List String → List (Except String Nat)
  | _, [] => []
  | j, url :: rest => GetLastSubmitCount (net j) url :: repliesFrom net (j + 1) rest

/-- The round result of the specification: the round is valid only if every
endpoint answered, and its sum is then the unsigned 64-bit sum of the answers. -/
def specRoundResult (urls : List String) (net : Network) : Option Nat :=
  let rs := repliesFrom net 0 urls
  if rs.all Except.isOk then some ((rs.filterMap Except.toOption).sum % 2 ^ 64) else none

/-- The round sums of the valid rounds among rounds `0, ..., n - 1` of a day. -/
def specValidSums (urls : List String) (net : Nat → Network) (n : Nat) : List Nat :=
  (List.range n).filterMap (fun i => specRoundResult urls (net i))

/-- Three endpoints, as in the scenario of the specification. -/
def urlsABC : List String := ["A", "B", "C"]

/-- A day in which round 0 answers 10, 20, 30, round 1 loses endpoint B,
round 2 answers 5, 5, 5 and every later round finds all endpoints down. -/
def scenarioNet : Nat → Network := fun i j _ =>
  match i, j with
  | 0, 0 => .answered 10
  | 0, 1 => .answered 20
  | 0, 2 => .answered 30
  | 1, 1 => .callFailed "timeout"
  | 1, _ => .answered 20
  | 2, _ => .answered 5
  | _, _ => .dialFailed "connection refused"

/-- A network on which every dial fails. -/
def netDown : Network := fun _ _ => .dialFailed "connection refused"

/-- A network on which every endpoint answers `2 ^ 63`. -/
def netHuge : Network := fun _ _ => .answered (2 ^ 63)

/-- An accumulator in the middle of a day: one valid round of sum 60 so far. -/
def midDay : Accumulator :=
  { LastSubmitCount := 60, dayTotal := 60, cnt := 1, i := 1, rounds := [] }

/-- A clock reading: 9 March 2024. -/
def march9 : Time := { year := 2024, month := 3, day := 9 }

/-- The day of the scenario, with a successful store write. -/
def scenarioDay : DayEnv :=
  { net := scenarioNet, now1 := march9, now2 := march9, now3 := march9, putOk := true }

/-- A day during which every endpoint is down in every round. -/
def outageDay : DayEnv :=
  { net := fun _ => netDown, now1 := march9, now2 := march9, now3 := march9, putOk := true }

/-- A day during which the single endpoint answers `2 ^ 63` in every round. -/
def hugeDay : DayEnv :=
  { net := fun _ => netHuge, now1 := march9, now2 := march9, now3 := march9, putOk := true }

/-- A day on which only round 0 is valid: the endpoint answers `m` there and is
down in every later round; the clock reads `t` and the store write succeeds. -/
def oneShotDay (m : Nat) (t : Time) : DayEnv :=
  { net := fun i _ _ =>
      match i with
      | 0 => .answered m
      | _ => .dialFailed "connection refused"
    now1 := t, now2 := t, now3 := t, putOk := true }

/-- A freshly started process: `LastSubmitCount = 0` and an empty store. -/
def freshWorld : World := { LastSubmitCount := 0, db := ⟨[]⟩ }

/-- A store holding a three-byte record under the key `2024-3-9`. -/
def shortRecordDB : DB := ⟨[("2024-3-9", [0, 0, 37])]⟩

/-! ## The endpoint loop -/

theorem callsOf_append (xs ys : List Effect) : callsOf (xs ++ ys) = callsOf xs ++ callsOf ys := by
  induction xs with
  | nil => rfl
  | cons x xs ih => cases x <;> simp [callsOf, ih]

theorem queryLoop_calls (net : Network) (urls : List String) (j : Nat) (r : RoundVars) :
    callsOf (queryLoop net urls j r).effects = callsOf r.effects ++ urls := by
  induction urls generalizing j r with
  | nil => simp [queryLoop]
  | cons url rest ih =>
    unfold queryLoop
    split <;> simp [ih, callsOf_append, callsOf]

theorem queryLoop_requestErr_mono (net : Network) (urls : List String) (j : Nat) (r : RoundVars)
    (h : r.requestErr = true) : (queryLoop net urls j r).requestErr = true := by
  induction urls generalizing j r with
  | nil => simpa [queryLoop] using h
  | cons url rest ih =>
    unfold queryLoop
    split
    · exact ih _ _ rfl
    · exact ih _ _ h

theorem queryLoop_requestErr_of_fail (net : Network) (urls : List String) (off : Nat)
    (r : RoundVars) (k : Nat) (hk : k < urls.length) (e : String)
    (hfail : GetLastSubmitCount (net (off + k)) (urls.get ⟨k, hk⟩) = .error e) :
    (queryLoop net urls off r).requestErr = true := by
  induction urls generalizing off r k with
  | nil => simp at hk
  | cons url rest ih =>
    unfold queryLoop
    cases k with
    | zero =>
      simp only [List.get_eq_getElem, List.getElem_cons_zero, Nat.add_zero] at hfail
      rw [hfail]
      exact queryLoop_requestErr_mono _ _ _ _ rfl
    | succ k =>
      have hk2 : k < rest.length := by simpa using hk
      have hfail2 : GetLastSubmitCount (net (off + 1 + k)) (rest.get ⟨k, hk2⟩) = .error e := by
        have : off + 1 + k = off + (k + 1) := by omega
        rw [this]; simpa using hfail
      split
      · exact ih _ _ k hk2 hfail2
      · exact ih _ _ k hk2 hfail2

theorem queryLoop_all_ok (net : Network) (urls : List String) (vals : List Nat) (off : Nat)
    (r : RoundVars) (hr : r.total < 2 ^ 64) (hlen : vals.length = urls.length)
    (hok : ∀ (k : Nat) (h1 : k < urls.length) (h2 : k < vals.length),
      GetLastSubmitCount (net (off + k)) (urls.get ⟨k, h1⟩) = .ok (vals.get ⟨k, h2⟩)) :
    (queryLoop net urls off r).requestErr = r.requestErr ∧
      (queryLoop net urls off r).total = (r.total + vals.sum) % 2 ^ 64 := by
  induction urls generalizing off r vals with
  | nil =>
    cases vals with
    | nil =>
      refine ⟨rfl, ?_⟩
      show r.total = (r.total + 0) % 2 ^ 64
      rw [Nat.add_zero, Nat.mod_eq_of_lt hr]
    | cons v vs => simp at hlen
  | cons url rest ih =>
    cases vals with
    | nil => simp at hlen
    | cons v vs =>
      have hlen2 : vs.length = rest.length := by simpa using hlen
      have h0 := hok 0 (by simp) (by simp)
      simp only [List.get_eq_getElem, List.getElem_cons_zero, Nat.add_zero] at h0
      have hrest : ∀ (k : Nat) (h1 : k < rest.length) (h2 : k < vs.length),
          GetLastSubmitCount (net (off + 1 + k)) (rest.get ⟨k, h1⟩) = .ok (vs.get ⟨k, h2⟩) := by
        intro k h1 h2
        have := hok (k + 1) (by simpa using h1) (by simpa using h2)
        have e : off + 1 + k = off + (k + 1) := by omega
        rw [e]; simpa using this
      unfold queryLoop
      rw [h0]
      obtain ⟨ha, hb⟩ := ih vs (off + 1)
        { r with total := (r.total + v) % 2 ^ 64, effects := r.effects ++ [.call url] }
        (Nat.mod_lt _ (by norm_num)) hlen2 hrest
      refine ⟨ha, ?_⟩
      simp only at hb ⊢
      rw [hb, List.sum_cons, Nat.mod_add_mod, Nat.add_assoc]

theorem queryLoop_no_sleep (net : Network) (urls : List String) (j : Nat) (r : RoundVars)
    (h : ∀ d, Effect.sleep d ∉ r.effects) :
    ∀ d, Effect.sleep d ∉ (queryLoop net urls j r).effects := by
  induction urls generalizing j r with
  | nil => simpa [queryLoop] using h
  | cons url rest ih =>
    unfold queryLoop
    split
    · exact ih _ _ (by intro d; simp [h d])
    · exact ih _ _ (by intro d; simp [h d])

/-! ## One round -/

theorem invalid_round_no_sleep (urls : List String) (net : Network) (s : Accumulator)
    (j : Nat) (hj : j < urls.length) (e : String)
    (hfail : GetLastSubmitCount (net j) (urls.get ⟨j, hj⟩) = .error e) :
    ∃ es, (roundBody urls net s).rounds = s.rounds ++ [es] ∧ ∀ d, Effect.sleep d ∉ es := by
  have h : (queryLoop net urls 0 roundStart).requestErr = true :=
    queryLoop_requestErr_of_fail net urls 0 roundStart j hj e (by simpa using hfail)
  refine ⟨(queryLoop net urls 0 roundStart).effects, ?_,
    queryLoop_no_sleep net urls 0 roundStart (by simp [roundStart])⟩
  unfold roundBody
  simp [h]

theorem valid_round_then_sleep (urls : List String) (net : Network) (s : Accumulator)
    (h : (queryLoop net urls 0 roundStart).requestErr = false) :
    ∃ es, (roundBody urls net s).rounds = s.rounds ++ [es ++ [.sleep QueryWait]] ∧
      ∀ d, Effect.sleep d ∉ es := by
  refine ⟨(queryLoop net urls 0 roundStart).effects, ?_,
    queryLoop_no_sleep net urls 0 roundStart (by simp [roundStart])⟩
  unfold roundBody
  simp [h]

/-- C10: whatever the network does, one round calls the sampler once per
configured endpoint, in list order; the calls recorded for the round are exactly
the endpoint list, so a failed call neither stops nor adds calls. -/
theorem round_calls_every_endpoint (urls : List String) (net : Network) (s : Accumulator) :
    callsOf (queryLoop net urls 0 roundStart).effects = urls ∧
    ∃ es, (roundBody urls net s).rounds = s.rounds ++ [es] ∧ callsOf es = urls := by
  have h := queryLoop_calls net urls 0 roundStart
  have h0 : callsOf (queryLoop net urls 0 roundStart).effects = urls := by
    simpa [roundStart, callsOf] using h
  refine ⟨h0, ?_⟩
  unfold roundBody
  simp only
  split
  · exact ⟨_, rfl, h0⟩
  · refine ⟨_, rfl, ?_⟩
    rw [callsOf_append]
    simpa [callsOf] using h0

/-- C2: a round in which at least one endpoint call fails leaves
`LastSubmitCount`, `dayTotal` and `cnt` at their values before the round,
whatever the other endpoints return. -/
theorem failed_round_changes_nothing (urls : List String) (net : Network) (s : Accumulator)
    (j : Nat) (hj : j < urls.length) (e : String)
    (hfail : GetLastSubmitCount (net j) (urls.get ⟨j, hj⟩) = .error e) :
    (roundBody urls net s).LastSubmitCount = s.LastSubmitCount ∧
    (roundBody urls net s).dayTotal = s.dayTotal ∧
    (roundBody urls net s).cnt = s.cnt := by
  have h : (queryLoop net urls 0 roundStart).requestErr = true :=
    queryLoop_requestErr_of_fail net urls 0 roundStart j hj e (by simpa using hfail)
  unfold roundBody
  simp only
  simp [h]

/-- Witness for C2 : endpoint B fails in round 1 of the scenario. -/
theorem failed_round_changes_nothing_witness :
    (roundBody urlsABC (scenarioNet 1) midDay).LastSubmitCount = midDay.LastSubmitCount ∧
    (roundBody urlsABC (scenarioNet 1) midDay).dayTotal = midDay.dayTotal ∧
    (roundBody urlsABC (scenarioNet 1) midDay).cnt = midDay.cnt :=
  failed_round_changes_nothing urlsABC (scenarioNet 1) midDay 1 (by decide) "timeout" rfl

/-- C3, as stated, fails: two endpoints that both answer `2 ^ 63` (64-bit values)
make a valid round, and `LastSubmitCount` becomes `0`, not the sum `2 ^ 64`. -/
theorem valid_round_sum_wraps :
    (∀ v ∈ [2 ^ 63, 2 ^ 63], v < 2 ^ 64) ∧
    GetLastSubmitCount (netHuge 0) "A" = .ok (2 ^ 63) ∧
    GetLastSubmitCount (netHuge 1) "B" = .ok (2 ^ 63) ∧
    (roundBody ["A", "B"] netHuge midDay).LastSubmitCount = 0 ∧
    (roundBody ["A", "B"] netHuge midDay).LastSubmitCount ≠ List.sum [2 ^ 63, 2 ^ 63] := by
  refine ⟨by simp, rfl, rfl, ?_, ?_⟩ <;> decide

/-- C3, amended: when every endpoint call of a round succeeds, `LastSubmitCount`
after the round is the sum of the returned values reduced modulo `2 ^ 64`,
whatever it held before; it is the exact sum whenever that sum is below `2 ^ 64`. -/
theorem valid_round_sets_last (urls : List String) (net : Network) (s : Accumulator)
    (vals : List Nat) (hlen : vals.length = urls.length)
    (hok : ∀ (k : Nat) (h1 : k < urls.length) (h2 : k < vals.length),
      GetLastSubmitCount (net k) (urls.get ⟨k, h1⟩) = .ok (vals.get ⟨k, h2⟩)) :
    (roundBody urls net s).LastSubmitCount = vals.sum % 2 ^ 64 ∧
    (vals.sum < 2 ^ 64 → (roundBody urls net s).LastSubmitCount = vals.sum) := by
  obtain ⟨ha, hb⟩ := queryLoop_all_ok net urls vals 0 roundStart (by simp [roundStart]) hlen
    (by simpa using hok)
  have hl : (roundBody urls net s).LastSubmitCount = vals.sum % 2 ^ 64 := by
    unfold roundBody
    simp only
    rw [ha, hb]
    simp [roundStart]
  exact ⟨hl, fun hlt => by rw [hl, Nat.mod_eq_of_lt hlt]⟩

/-- Witness for the amended C3 : round 0 of the scenario answers 10, 20, 30. -/
theorem valid_round_sets_last_witness :
    (roundBody urlsABC (scenarioNet 0) midDay).LastSubmitCount = [10, 20, 30].sum % 2 ^ 64 ∧
    ([10, 20, 30].sum < 2 ^ 64 →
      (roundBody urlsABC (scenarioNet 0) midDay).LastSubmitCount = [10, 20, 30].sum) :=
  valid_round_sets_last urlsABC (scenarioNet 0) midDay [10, 20, 30] rfl (by
    intro k h1 h2
    have hk : k < 3 := h1
    interval_cases k <;> rfl)

/-! ## The round loop -/

theorem queryLoop_replies (net : Network) (urls : List String) (j : Nat) (r : RoundVars)
    (hr : r.total < 2 ^ 64) :
    (queryLoop net urls j r).requestErr
        = (r.requestErr || !(repliesFrom net j urls).all Except.isOk) ∧
      (queryLoop net urls j r).total
        = (r.total + ((repliesFrom net j urls).filterMap Except.toOption).sum) % 2 ^ 64 := by
  induction urls generalizing j r with
  | nil =>
    simp only [queryLoop, repliesFrom, List.all_nil, Bool.not_true, Bool.or_false,
      List.filterMap_nil, List.sum_nil, Nat.add_zero, true_and]
    exact (Nat.mod_eq_of_lt hr).symm
  | cons url rest ih =>
    unfold queryLoop
    simp only [repliesFrom]
    cases hg : GetLastSubmitCount (net j) url with
    | error e =>
      obtain ⟨ha, hb⟩ := ih (j + 1)
        { r with requestErr := true, effects := r.effects ++ [.call url, .logError url] } hr
      simp only at ha hb ⊢
      refine ⟨?_, ?_⟩
      · rw [ha]; simp [Except.isOk, Except.toBool]
      · rw [hb]; simp [Except.toOption]
    | ok c =>
      obtain ⟨ha, hb⟩ := ih (j + 1)
        { r with total := (r.total + c) % 2 ^ 64, effects := r.effects ++ [.call url] }
        (Nat.mod_lt _ (by norm_num))
      simp only at ha hb ⊢
      refine ⟨?_, ?_⟩
      · rw [ha]; simp [Except.isOk, Except.toBool]
      · rw [hb]; simp [Except.toOption, Nat.add_assoc]

theorem roundBody_invalid (urls : List String) (net : Network) (s : Accumulator)
    (h : specRoundResult urls net = none) :
    (roundBody urls net s).LastSubmitCount = s.LastSubmitCount ∧
    (roundBody urls net s).dayTotal = s.dayTotal ∧
    (roundBody urls net s).cnt = s.cnt ∧
    (roundBody urls net s).i = s.i + 1 := by
  obtain ⟨ha, -⟩ := queryLoop_replies net urls 0 roundStart (by simp [roundStart])
  have hall : (repliesFrom net 0 urls).all Except.isOk = false := by
    unfold specRoundResult at h
    simp only at h
    split at h
    · exact absurd h (by simp)
    · rename_i hn
      exact Bool.eq_false_iff.mpr hn
  have he : (queryLoop net urls 0 roundStart).requestErr = true := by
    rw [ha, hall]; simp
  unfold roundBody
  simp only
  simp [he]

theorem roundBody_valid (urls : List String) (net : Network) (s : Accumulator) (t : Nat)
    (h : specRoundResult urls net = some t) :
    (roundBody urls net s).LastSubmitCount = t ∧
    (roundBody urls net s).dayTotal = (s.dayTotal + t) % 2 ^ 64 ∧
    (roundBody urls net s).cnt = (s.cnt + 1) % 2 ^ 64 ∧
    (roundBody urls net s).i = s.i + 1 := by
  obtain ⟨ha, hb⟩ := queryLoop_replies net urls 0 roundStart (by simp [roundStart])
  unfold specRoundResult at h
  simp only at h
  split at h
  · rename_i hall
    have he : (queryLoop net urls 0 roundStart).requestErr = false := by
      rw [ha, hall]; simp [roundStart]
    have ht : (queryLoop net urls 0 roundStart).total = t := by
      rw [hb]
      simpa [roundStart] using h
    unfold roundBody
    simp only
    simp [he, ht]
  · exact absurd h (by simp)

theorem roundsLoop_done (urls : List String) (net : Nat → Network) (n : Nat) (s : Accumulator)
    (h : ¬ s.i < DayTimes) : roundsLoop urls net n s = s := by
  cases n <;> simp [roundsLoop, h]

theorem roundsLoop_succ (urls : List String) (net : Nat → Network) (n : Nat) (s : Accumulator) :
    roundsLoop urls net (n + 1) s =
      if (roundsLoop urls net n s).i < DayTimes then
        roundBody urls (net (roundsLoop urls net n s).i) (roundsLoop urls net n s)
      else roundsLoop urls net n s := by
  induction n generalizing s with
  | zero => simp [roundsLoop]
  | succ n ih =>
    by_cases h : s.i < DayTimes
    · have e1 : roundsLoop urls net (n + 1 + 1) s
          = roundsLoop urls net (n + 1) (roundBody urls (net s.i) s) := by
        conv_lhs => unfold roundsLoop
        simp [h]
      have e2 : roundsLoop urls net (n + 1) s
          = roundsLoop urls net n (roundBody urls (net s.i) s) := by
        conv_lhs => unfold roundsLoop
        simp [h]
      rw [e1, e2, ih]
    · rw [roundsLoop_done _ _ _ _ h, roundsLoop_done _ _ _ _ h]
      simp [h]

theorem specValidSums_succ (urls : List String) (net : Nat → Network) (n : Nat) :
    specValidSums urls net (n + 1) = specValidSums urls net n ++ (specRoundResult urls (net n)).toList := by
  unfold specValidSums
  rw [List.range_succ, List.filterMap_append]
  cases h : specRoundResult urls (net n) <;> simp [List.filterMap, h]

theorem specValidSums_length_le (urls : List String) (net : Nat → Network) (n : Nat) :
    (specValidSums urls net n).length ≤ n := by
  unfold specValidSums
  exact (List.length_filterMap_le _ _).trans (by simp)

theorem roundsLoop_invariant (urls : List String) (net : Nat → Network) (last n : Nat)
    (hn : n ≤ DayTimes) :
    (roundsLoop urls net n (dayStart last)).i = n ∧
    (roundsLoop urls net n (dayStart last)).cnt = (specValidSums urls net n).length ∧
    (roundsLoop urls net n (dayStart last)).dayTotal = (specValidSums urls net n).sum % 2 ^ 64 ∧
    (roundsLoop urls net n (dayStart last)).LastSubmitCount
      = ((specValidSums urls net n).getLast?).getD last := by
  induction n with
  | zero => simp [roundsLoop, dayStart, specValidSums]
  | succ n ih =>
    obtain ⟨hi, hc, ht, hl⟩ := ih (by omega)
    have hlt : (roundsLoop urls net n (dayStart last)).i < DayTimes := by omega
    rw [roundsLoop_succ, if_pos hlt, hi, specValidSums_succ]
    cases hr : specRoundResult urls (net n) with
    | none =>
      obtain ⟨h1, h2, h3, h4⟩ := roundBody_invalid urls (net n) (roundsLoop urls net n (dayStart last)) hr
      simp [h1, h2, h3, h4, hi, hc, ht, hl]
    | some t =>
      obtain ⟨h1, h2, h3, h4⟩ := roundBody_valid urls (net n) (roundsLoop urls net n (dayStart last)) t hr
      have hle := specValidSums_length_le urls net n
      have hD : DayTimes = 144 := rfl
      refine ⟨by rw [h4, hi], ?_, ?_, ?_⟩
      · rw [h3, hc]
        simp only [Option.toList, List.length_append, List.length_singleton]
        exact Nat.mod_eq_of_lt (by omega)
      · rw [h2, ht]
        simp [Nat.add_mod]
      · rw [h1]; simp [Option.toList]

/-! ## The eight-byte big-endian encoding -/

theorem or_shiftLeft_eq_add (x b k : Nat) (h : x < 2 ^ k) : x ||| b <<< k = b * 2 ^ k + x := by
  rw [Nat.or_comm, Nat.shiftLeft_eq, Nat.mul_comm b, ← Nat.mul_add_lt_is_or h]

theorem PutUint64_make (v : Nat) :
    PutUint64 (makeBytes 8) v = .ok [byte (v >>> 56), byte (v >>> 48), byte (v >>> 40),
      byte (v >>> 32), byte (v >>> 24), byte (v >>> 16), byte (v >>> 8), byte v] := rfl

theorem Uint64_eight (b0 b1 b2 b3 b4 b5 b6 b7 : Nat) (h1 : b1 < 256)
    (h2 : b2 < 256) (h3 : b3 < 256) (h4 : b4 < 256) (h5 : b5 < 256) (h6 : b6 < 256)
    (h7 : b7 < 256) :
    Uint64 [b0, b1, b2, b3, b4, b5, b6, b7]
      = .ok (b0 * 2 ^ 56 + (b1 * 2 ^ 48 + (b2 * 2 ^ 40 + (b3 * 2 ^ 32 + (b4 * 2 ^ 24 +
          (b5 * 2 ^ 16 + (b6 * 2 ^ 8 + b7))))))) := by
  have e : Uint64 [b0, b1, b2, b3, b4, b5, b6, b7]
      = .ok (b7 ||| b6 <<< 8 ||| b5 <<< 16 ||| b4 <<< 24 ||| b3 <<< 32 ||| b2 <<< 40 |||
          b1 <<< 48 ||| b0 <<< 56) := rfl
  rw [e, or_shiftLeft_eq_add b7 b6 8 (by omega), or_shiftLeft_eq_add _ b5 16 (by omega),
    or_shiftLeft_eq_add _ b4 24 (by omega), or_shiftLeft_eq_add _ b3 32 (by omega),
    or_shiftLeft_eq_add _ b2 40 (by omega), or_shiftLeft_eq_add _ b1 48 (by omega),
    or_shiftLeft_eq_add _ b0 56 (by omega)]

theorem Uint64_PutUint64 (m : Nat) (hm : m < 2 ^ 64) (bs : Bytes)
    (h : PutUint64 (makeBytes 8) m = .ok bs) : Uint64 bs = .ok m := by
  rw [PutUint64_make] at h
  injection h with h
  subst h
  have hb : ∀ x, byte x < 256 := fun x => Nat.mod_lt _ (by norm_num)
  rw [Uint64_eight _ _ _ _ _ _ _ _ (hb _) (hb _) (hb _) (hb _) (hb _) (hb _) (hb _)]
  congr 1
  simp only [byte, Nat.shiftRight_eq_div_pow]
  omega

/-! ## One day cycle -/

theorem roundsLoop_exits (urls : List String) (net : Nat → Network) (last : Nat) :
    ¬ (roundsLoop urls net DayTimes (dayStart last)).i < DayTimes := by
  rw [(roundsLoop_invariant urls net last DayTimes (Nat.le_refl _)).1]
  exact Nat.lt_irrefl _

theorem dayCycle_no_valid_round (urls : List String) (env : DayEnv) (w : World)
    (h : specValidSums urls env.net DayTimes = []) :
    dayCycle urls env w = .error .divideByZero := by
  obtain ⟨-, hc, -, -⟩ := roundsLoop_invariant urls env.net w.LastSubmitCount DayTimes
    (Nat.le_refl _)
  unfold dayCycle
  simp only
  rw [hc, h]
  simp [divU64]

/-- C1, on the code: a day in which every endpoint is down in every round ends
with valid-round count `0`, and line 157 then divides by zero: the day cycle
panics and the goroutine never reaches the next day cycle. -/
theorem outage_day_panics :
    (roundsLoop RpcUrl outageDay.net DayTimes (dayStart 0)).cnt = 0 ∧
    dayCycle RpcUrl outageDay freshWorld = .error .divideByZero ∧
    LoadSubmitCount RpcUrl (fun _ => outageDay) 2 freshWorld = .error .divideByZero :=
  ⟨rfl, rfl, rfl⟩

/-- C8, on the code: in the scenario day, round 1 (endpoint B fails) records its
three calls and one error log but no sleep, and round 2 starts right after it. -/
theorem invalid_round_skips_sleep :
    ∃ w log, dayCycle urlsABC scenarioDay freshWorld = .ok (w, log) ∧
      log.rounds.get? 1 = some [.call "A", .call "B", .logError "B", .call "C"] ∧
      log.rounds.get? 2
        = some [.call "A", .call "B", .call "C", .sleep QueryWait] := by
  set_option maxRecDepth 100000 in
  exact ⟨_, _, rfl, rfl, rfl⟩

/-- C9, as stated, fails: in round 1 of the scenario endpoint B fails, and the
number of rounds left drops from 143 to 142. -/
theorem invalid_round_uses_a_round :
    GetLastSubmitCount (scenarioNet 1 1) "B" = .error "timeout" ∧
    roundsLeft midDay = 143 ∧
    roundsLeft (roundBody urlsABC (scenarioNet 1) midDay) = 142 ∧
    roundsLeft (roundBody urlsABC (scenarioNet 1) midDay) ≠ roundsLeft midDay := by
  refine ⟨rfl, rfl, rfl, ?_⟩
  decide

/-- C9, amended: an invalid round does count toward the round budget. A round
in which some endpoint call fails, run while rounds are left, uses up exactly
one of the `DayTimes` rounds: one round fewer is left after it than before. -/
theorem invalid_round_counts_toward_budget (urls : List String) (net : Network)
    (s : Accumulator) (j : Nat) (hj : j < urls.length) (e : String)
    (hfail : GetLastSubmitCount (net j) (urls.get ⟨j, hj⟩) = .error e)
    (hi : s.i < DayTimes) :
    roundsLeft (roundBody urls net s) + 1 = roundsLeft s := by
  have h : (queryLoop net urls 0 roundStart).requestErr = true :=
    queryLoop_requestErr_of_fail net urls 0 roundStart j hj e (by simpa using hfail)
  have hi2 : (roundBody urls net s).i = s.i + 1 := by
    unfold roundBody
    simp [h]
  unfold roundsLeft
  rw [hi2]
  omega

/-- Witness for the amended C9 : round 1 of the scenario, with 143 rounds left. -/
theorem invalid_round_counts_toward_budget_witness :
    midDay.i < DayTimes ∧
    roundsLeft (roundBody urlsABC (scenarioNet 1) midDay) + 1 = roundsLeft midDay :=
  ⟨by decide,
    invalid_round_counts_toward_budget urlsABC (scenarioNet 1) midDay 1 (by decide) "timeout"
      rfl (by decide)⟩

/-- C4, as stated, fails: with one endpoint that answers `2 ^ 63` in each of the
144 rounds, all rounds are valid, `T = 144 * 2 ^ 63` and `floor(T / N) = 2 ^ 63`,
but the running total has wrapped to `0` and the mean stored under the date is `0`. -/
theorem day_total_wraps :
    specValidSums ["A"] hugeDay.net DayTimes = List.replicate 144 (2 ^ 63) ∧
    (specValidSums ["A"] hugeDay.net DayTimes).sum / (specValidSums ["A"] hugeDay.net DayTimes).length
      = 2 ^ 63 ∧
    ∃ w log, dayCycle ["A"] hugeDay freshWorld = .ok (w, log) ∧
      log.final = [.logInfo 0, .put "2024-3-9" [0, 0, 0, 0, 0, 0, 0, 0]] ∧
      w.db.Get "2024-3-9" = .ok [0, 0, 0, 0, 0, 0, 0, 0] ∧
      Uint64 [0, 0, 0, 0, 0, 0, 0, 0] = .ok 0 := by
  set_option maxRecDepth 100000 in
  exact ⟨rfl, rfl, _, _, rfl, rfl, rfl, rfl⟩

/-- C4, amended: when a day cycle ends with `N > 0` valid rounds whose round sums
add up to `T`, the day cycle completes and writes, under the date key, the eight
bytes of `floor((T mod 2 ^ 64) / N)`, the running total being kept modulo
`2 ^ 64`; this is `floor(T / N)` whenever `T < 2 ^ 64`. -/
theorem day_mean_persisted (urls : List String) (env : DayEnv) (w : World)
    (hN : 0 < (specValidSums urls env.net DayTimes).length) :
    ∃ w1 log bytes,
      dayCycle urls env w = .ok (w1, log) ∧
      Effect.put (dayString env.now1 env.now2 env.now3) bytes ∈ log.final ∧
      (env.putOk = true → w1.db = w.db.Put (dayString env.now1 env.now2 env.now3) bytes) ∧
      Uint64 bytes = .ok ((specValidSums urls env.net DayTimes).sum % 2 ^ 64
        / (specValidSums urls env.net DayTimes).length) ∧
      ((specValidSums urls env.net DayTimes).sum < 2 ^ 64 →
        Uint64 bytes = .ok ((specValidSums urls env.net DayTimes).sum
          / (specValidSums urls env.net DayTimes).length)) := by
  obtain ⟨-, hc, ht, -⟩ := roundsLoop_invariant urls env.net w.LastSubmitCount DayTimes
    (Nat.le_refl _)
  have hdiv : divU64 (roundsLoop urls env.net DayTimes (dayStart w.LastSubmitCount)).dayTotal
      (roundsLoop urls env.net DayTimes (dayStart w.LastSubmitCount)).cnt
      = .ok ((specValidSums urls env.net DayTimes).sum % 2 ^ 64
        / (specValidSums urls env.net DayTimes).length) := by
    rw [hc, ht]
    unfold divU64
    rw [if_neg (by omega)]
  have hlt : (specValidSums urls env.net DayTimes).sum % 2 ^ 64
      / (specValidSums urls env.net DayTimes).length < 2 ^ 64 :=
    lt_of_le_of_lt (Nat.div_le_self _ _) (Nat.mod_lt _ (by norm_num))
  obtain ⟨bytes, hb⟩ : ∃ bytes, PutUint64 (makeBytes 8)
      ((specValidSums urls env.net DayTimes).sum % 2 ^ 64
        / (specValidSums urls env.net DayTimes).length) = .ok bytes := ⟨_, PutUint64_make _⟩
  have hu := Uint64_PutUint64 _ hlt bytes hb
  have hu2 : (specValidSums urls env.net DayTimes).sum < 2 ^ 64 →
      Uint64 bytes = .ok ((specValidSums urls env.net DayTimes).sum
        / (specValidSums urls env.net DayTimes).length) := by
    intro h
    rw [hu, Nat.mod_eq_of_lt h]
  have hcycle : dayCycle urls env w
      = if env.putOk then
          .ok ({ LastSubmitCount :=
                  (roundsLoop urls env.net DayTimes (dayStart w.LastSubmitCount)).LastSubmitCount,
                 db := w.db.Put (dayString env.now1 env.now2 env.now3) bytes },
               { rounds := (roundsLoop urls env.net DayTimes (dayStart w.LastSubmitCount)).rounds,
                 final := [.logInfo ((specValidSums urls env.net DayTimes).sum % 2 ^ 64
                    / (specValidSums urls env.net DayTimes).length),
                   .put (dayString env.now1 env.now2 env.now3) bytes] })
        else
          .ok ({ LastSubmitCount :=
                  (roundsLoop urls env.net DayTimes (dayStart w.LastSubmitCount)).LastSubmitCount,
                 db := w.db },
               { rounds := (roundsLoop urls env.net DayTimes (dayStart w.LastSubmitCount)).rounds,
                 final := [.logInfo ((specValidSums urls env.net DayTimes).sum % 2 ^ 64
                    / (specValidSums urls env.net DayTimes).length),
                   .put (dayString env.now1 env.now2 env.now3) bytes, .logPutErr] }) := by
    unfold dayCycle
    simp only [hdiv, hb]
  by_cases hp : env.putOk = true
  · rw [if_pos hp] at hcycle
    exact ⟨_, _, bytes, hcycle, by simp, fun _ => rfl, hu, hu2⟩
  · rw [if_neg hp] at hcycle
    exact ⟨_, _, bytes, hcycle, by simp, fun h => absurd h hp, hu, hu2⟩

/-- Witness for the amended C4 : the scenario day has the valid round sums 60
and 15, so `T = 75`, `N = 2`. -/
theorem day_mean_persisted_witness :
    0 < (specValidSums urlsABC scenarioDay.net DayTimes).length ∧
    ∃ w1 log bytes,
      dayCycle urlsABC scenarioDay freshWorld = .ok (w1, log) ∧
      Effect.put (dayString scenarioDay.now1 scenarioDay.now2 scenarioDay.now3) bytes
        ∈ log.final ∧
      (scenarioDay.putOk = true → w1.db
        = freshWorld.db.Put (dayString scenarioDay.now1 scenarioDay.now2 scenarioDay.now3)
            bytes) ∧
      Uint64 bytes = .ok ((specValidSums urlsABC scenarioDay.net DayTimes).sum % 2 ^ 64
        / (specValidSums urlsABC scenarioDay.net DayTimes).length) ∧
      ((specValidSums urlsABC scenarioDay.net DayTimes).sum < 2 ^ 64 →
        Uint64 bytes = .ok ((specValidSums urlsABC scenarioDay.net DayTimes).sum
          / (specValidSums urlsABC scenarioDay.net DayTimes).length)) := by
  have h : specValidSums urlsABC scenarioDay.net DayTimes = [60, 15] := by
    set_option maxRecDepth 100000 in
    exact rfl
  exact ⟨by rw [h]; decide, day_mean_persisted urlsABC scenarioDay freshWorld (by rw [h]; decide)⟩

/-- The scenario day end to end: round sums 60, an invalid round, then 15; the
mean 37 is stored under `2024-3-9` and served by the `/daycnt` handler. -/
theorem scenario_day_mean :
    specValidSums urlsABC scenarioDay.net DayTimes = [60, 15] ∧
    ∃ w log, dayCycle urlsABC scenarioDay freshWorld = .ok (w, log) ∧
      w.LastSubmitCount = 15 ∧
      log.final = [.logInfo 37, .put "2024-3-9" [0, 0, 0, 0, 0, 0, 0, 37]] ∧
      dayCntHandler w.db [("day", "2024-3-9")] = .ok "37" := by
  set_option maxRecDepth 100000 in
  exact ⟨rfl, _, _, rfl, rfl, rfl, rfl⟩

/-! ## The store and the `/daycnt` handler -/

theorem DB.Get_Put_same (db : DB) (key : String) (value : Bytes) :
    (db.Put key value).Get key = .ok value := by
  simp [DB.Get, DB.Put, List.lookup]

theorem lookup_filter_ne (l : List (String × Bytes)) (key k : String) (h : k ≠ key) :
    (l.filter (fun e => e.1 != key)).lookup k = l.lookup k := by
  induction l with
  | nil => rfl
  | cons x xs ih =>
    obtain ⟨a, b⟩ := x
    by_cases ha : a = key
    · subst ha
      have hk : (k == a) = false := by simpa using h
      simp [List.filter, List.lookup, hk, ih]
    · have hne : (a != key) = true := by simpa using ha
      simp only [List.filter, hne, List.lookup]
      rw [ih]

theorem DB.Get_Put_other (db : DB) (key k : String) (value : Bytes) (h : k ≠ key) :
    (db.Put key value).Get k = db.Get k := by
  have hk : (k == key) = false := by simpa using h
  simp only [DB.Get, DB.Put, List.lookup, hk]
  rw [lookup_filter_ne _ _ _ h]

theorem DB.Get_absent (db : DB) (key : String) (h : ∀ v, (key, v) ∉ db.entries) :
    db.Get key = .error .notFound := by
  have hl : db.entries.lookup key = none := by
    obtain ⟨l⟩ := db
    simp only at h ⊢
    induction l with
    | nil => rfl
    | cons x xs ih =>
      obtain ⟨a, b⟩ := x
      have hne : (key == a) = false := by
        have : key ≠ a := fun hc => h b (by simp [hc])
        simpa using this
      simp only [List.lookup, hne]
      exact ih (fun v hv => h v (List.mem_cons_of_mem _ hv))
  simp [DB.Get, hl]

theorem toDigitsCore_no_minus (fuel n : Nat) (ds : List Char) (h : ∀ c ∈ ds, c ≠ '-') :
    ∀ c ∈ Nat.toDigitsCore 10 fuel n ds, c ≠ '-' := by
  induction fuel generalizing n ds with
  | zero => simpa [Nat.toDigitsCore] using h
  | succ fuel ih =>
    have hd : Nat.digitChar (n % 10) ≠ '-' := by
      have hlt : n % 10 < 10 := Nat.mod_lt _ (by norm_num)
      interval_cases (n % 10) <;> decide
    have hcons : ∀ c ∈ Nat.digitChar (n % 10) :: ds, c ≠ '-' := by
      intro c hc
      rcases List.mem_cons.mp hc with rfl | hc
      · exact hd
      · exact h c hc
    unfold Nat.toDigitsCore
    simp only
    split
    · exact hcons
    · exact ih _ _ hcons

theorem sprintU64_ne_sentinel (v : Nat) : sprintU64 v ≠ sprintInt (-2) := by
  intro h
  have h2 : (Nat.toDigits 10 v).asString = "-2" := h
  have h3 : Nat.toDigits 10 v = ['-', '2'] := by
    have := congrArg String.data h2
    simpa using this
  have hmem : '-' ∈ Nat.toDigits 10 v := by rw [h3]; simp
  exact toDigitsCore_no_minus (v + 1) v [] (by simp) '-' hmem rfl

theorem encode_put_get_decode (m : Nat) (hm : m < 2 ^ 64) (D : String) (db : DB) :
    ∃ bs, PutUint64 (makeBytes 8) m = .ok bs ∧
      bs.length = 8 ∧ (∀ b ∈ bs, b < 256) ∧
      bs.head? = some (m / 2 ^ 56) ∧
      bs.foldl (fun acc b => acc * 256 + b) 0 = m ∧
      (db.Put D bs).Get D = .ok bs ∧
      Uint64 bs = .ok m ∧
      dayCntHandler (db.Put D bs) [("day", D)] = .ok (sprintU64 m) := by
  refine ⟨_, PutUint64_make m, rfl, ?_, ?_, ?_, DB.Get_Put_same _ _ _, ?_, ?_⟩
  · intro b hb
    simp only [List.mem_cons, List.mem_singleton, List.not_mem_nil, or_false, byte] at hb
    rcases hb with h | h | h | h | h | h | h | h <;> (rw [h]; exact Nat.mod_lt _ (by norm_num))
  · simp only [List.head?, byte, Nat.shiftRight_eq_div_pow]
    congr 1
    omega
  · simp only [List.foldl, byte, Nat.shiftRight_eq_div_pow]
    omega
  · exact Uint64_PutUint64 m hm _ (PutUint64_make m)
  · have hu := Uint64_PutUint64 m hm _ (PutUint64_make m)
    have hl : List.lookup "day" [("day", D)] = some D := by simp [List.lookup]
    unfold dayCntHandler
    simp only [hl]
    rw [DB.Get_Put_same]
    simp only [hu]

theorem dayCycle_written (urls : List String) (env : DayEnv) (w w1 : World) (log : DayLog)
    (h : dayCycle urls env w = .ok (w1, log)) (hput : env.putOk = true) :
    ∃ m bs, m < 2 ^ 64 ∧
      divU64 (roundsLoop urls env.net DayTimes (dayStart w.LastSubmitCount)).dayTotal
        (roundsLoop urls env.net DayTimes (dayStart w.LastSubmitCount)).cnt = .ok m ∧
      PutUint64 (makeBytes 8) m = .ok bs ∧
      log.final = [.logInfo m, .put (dayString env.now1 env.now2 env.now3) bs] ∧
      w1.db = w.db.Put (dayString env.now1 env.now2 env.now3) bs := by
  obtain ⟨-, -, ht, -⟩ := roundsLoop_invariant urls env.net w.LastSubmitCount DayTimes
    (Nat.le_refl _)
  have hlt : (roundsLoop urls env.net DayTimes (dayStart w.LastSubmitCount)).dayTotal < 2 ^ 64 := by
    rw [ht]
    exact Nat.mod_lt _ (by norm_num)
  unfold dayCycle at h
  simp only at h
  cases hd : divU64 (roundsLoop urls env.net DayTimes (dayStart w.LastSubmitCount)).dayTotal
      (roundsLoop urls env.net DayTimes (dayStart w.LastSubmitCount)).cnt with
  | error f =>
    rw [hd] at h
    exact absurd h (by simp)
  | ok m =>
    have hm : m < 2 ^ 64 := by
      unfold divU64 at hd
      split at hd
      · exact absurd hd (by simp)
      · injection hd with hd
        rw [← hd]
        exact lt_of_le_of_lt (Nat.div_le_self _ _) hlt
    rw [hd] at h
    simp only [PutUint64_make, hput, if_true] at h
    injection h with h
    injection h with h1 h2
    refine ⟨m, _, hm, rfl, PutUint64_make m, ?_, ?_⟩
    · rw [← h2]
    · rw [← h1]

theorem oneShotDay_sums (m : Nat) (t : Time) :
    specValidSums ["A"] (oneShotDay m t).net DayTimes = [m % 2 ^ 64] := by
  set_option maxRecDepth 100000 in
  exact rfl

theorem every_mean_is_written (m : Nat) (hm : m < 2 ^ 64) (t : Time) (w : World) :
    ∃ w2 logs bs,
      LoadSubmitCount ["A"] (fun _ => oneShotDay m t) 1 w = .ok (w2, logs) ∧
      PutUint64 (makeBytes 8) m = .ok bs ∧
      w2.db = w.db.Put (dayString t t t) bs ∧
      dayCntHandler w2.db [("day", dayString t t t)] = .ok (sprintU64 m) := by
  obtain ⟨-, hc, ht, -⟩ := roundsLoop_invariant ["A"] (oneShotDay m t).net w.LastSubmitCount
    DayTimes (Nat.le_refl _)
  rw [oneShotDay_sums] at hc ht
  have hdiv : divU64
      (roundsLoop ["A"] (oneShotDay m t).net DayTimes (dayStart w.LastSubmitCount)).dayTotal
      (roundsLoop ["A"] (oneShotDay m t).net DayTimes (dayStart w.LastSubmitCount)).cnt
      = .ok m := by
    have hmm : m % 2 ^ 64 = m := Nat.mod_eq_of_lt hm
    rw [hc, ht]
    simp only [List.sum_cons, List.sum_nil, Nat.add_zero, List.length_singleton, hmm]
    unfold divU64
    rw [if_neg (by decide), Nat.div_one]
  obtain ⟨bs, hbs, -, -, -, -, -, -, hread⟩ := encode_put_get_decode m hm (dayString t t t) w.db
  have hcycle : dayCycle ["A"] (oneShotDay m t) w
      = .ok ({ LastSubmitCount :=
                (roundsLoop ["A"] (oneShotDay m t).net DayTimes
                  (dayStart w.LastSubmitCount)).LastSubmitCount,
               db := w.db.Put (dayString t t t) bs },
             { rounds := (roundsLoop ["A"] (oneShotDay m t).net DayTimes
                  (dayStart w.LastSubmitCount)).rounds,
               final := [.logInfo m, .put (dayString t t t) bs] }) := by
    unfold dayCycle
    simp only [hdiv, hbs]
    rfl
  have hrun : LoadSubmitCount ["A"] (fun _ => oneShotDay m t) 1 w
      = .ok ({ LastSubmitCount :=
                (roundsLoop ["A"] (oneShotDay m t).net DayTimes
                  (dayStart w.LastSubmitCount)).LastSubmitCount,
               db := w.db.Put (dayString t t t) bs },
             [{ rounds := (roundsLoop ["A"] (oneShotDay m t).net DayTimes
                  (dayStart w.LastSubmitCount)).rounds,
                final := [.logInfo m, .put (dayString t t t) bs] }]) := by
    simp only [LoadSubmitCount, hcycle]
    rfl
  exact ⟨_, _, bs, hrun, hbs, rfl, hread⟩

/-- C5: whenever a run of `LoadSubmitCount` completes a day cycle whose `db.Put`
succeeds, the cycle has written, under its date key `D`, the eight bytes that
`PutUint64` makes of its 64-bit mean `m`: exactly eight bytes, each below 256,
most significant first; and a read of `D` as the `/daycnt` handler does it (`Get`,
then `Uint64`) yields exactly `m`. -/
theorem day_average_round_trip (urls : List String) (envs : Nat → DayEnv) (days : Nat)
    (w w2 : World) (logs : List DayLog)
    (hrun : LoadSubmitCount urls envs (days + 1) w = .ok (w2, logs))
    (hput : (envs days).putOk = true) :
    ∃ m bs logs0 rounds,
      m < 2 ^ 64 ∧
      logs = logs0 ++ [{ rounds := rounds, final := [.logInfo m,
        .put (dayString (envs days).now1 (envs days).now2 (envs days).now3) bs] }] ∧
      PutUint64 (makeBytes 8) m = .ok bs ∧
      bs.length = 8 ∧ (∀ b ∈ bs, b < 256) ∧
      bs.head? = some (m / 2 ^ 56) ∧
      bs.foldl (fun acc b => acc * 256 + b) 0 = m ∧
      w2.db.Get (dayString (envs days).now1 (envs days).now2 (envs days).now3) = .ok bs ∧
      Uint64 bs = .ok m ∧
      dayCntHandler w2.db
        [("day", dayString (envs days).now1 (envs days).now2 (envs days).now3)]
        = .ok (sprintU64 m) := by
  simp only [LoadSubmitCount] at hrun
  cases hprev : LoadSubmitCount urls envs days w with
  | error f =>
    rw [hprev] at hrun
    exact absurd hrun (by simp)
  | ok r =>
    obtain ⟨w1, logs0⟩ := r
    rw [hprev] at hrun
    simp only at hrun
    cases hday : dayCycle urls (envs days) w1 with
    | error f =>
      rw [hday] at hrun
      exact absurd hrun (by simp)
    | ok r2 =>
      obtain ⟨w3, log⟩ := r2
      rw [hday] at hrun
      simp only at hrun
      injection hrun with hrun
      injection hrun with hw hl
      subst hw
      obtain ⟨m, bs, hm, -, hbs, hfinal, hdb⟩ := dayCycle_written urls (envs days) w1 w3 log hday hput
      obtain ⟨bs2, hbs2, hlen, hbytes, hhead, hfold, hget, hdec, hread⟩ :=
        encode_put_get_decode m hm
          (dayString (envs days).now1 (envs days).now2 (envs days).now3) w1.db
      have hbb : bs2 = bs := by
        rw [hbs] at hbs2
        injection hbs2 with hbs2
        exact hbs2.symm
      subst hbb
      refine ⟨m, bs2, logs0, log.rounds, hm, ?_, hbs, hlen, hbytes, hhead, hfold, ?_, hdec, ?_⟩
      · rw [← hl, ← hfinal]
      · rw [hdb]; exact hget
      · rw [hdb]; exact hread

/-- Witness for C5 : the first day cycle of a fresh process on the scenario day
writes the mean 37 under `2024-3-9`, and the handler reads 37 back. -/
theorem day_average_round_trip_witness :
    ∃ w2 logs,
      LoadSubmitCount urlsABC (fun _ => scenarioDay) 1 freshWorld = .ok (w2, logs) ∧
      scenarioDay.putOk = true ∧
      dayCntHandler w2.db [("day", "2024-3-9")] = .ok "37" ∧
      ∃ m bs logs0 rounds,
        m < 2 ^ 64 ∧
        logs = logs0 ++ [{ rounds := rounds, final := [.logInfo m,
          .put (dayString scenarioDay.now1 scenarioDay.now2 scenarioDay.now3) bs] }] ∧
        PutUint64 (makeBytes 8) m = .ok bs ∧
        bs.length = 8 ∧ (∀ b ∈ bs, b < 256) ∧
        bs.head? = some (m / 2 ^ 56) ∧
        bs.foldl (fun acc b => acc * 256 + b) 0 = m ∧
        w2.db.Get (dayString scenarioDay.now1 scenarioDay.now2 scenarioDay.now3) = .ok bs ∧
        Uint64 bs = .ok m ∧
        dayCntHandler w2.db
          [("day", dayString scenarioDay.now1 scenarioDay.now2 scenarioDay.now3)]
          = .ok (sprintU64 m) := by
  set_option maxRecDepth 100000 in
  exact ⟨_, _, rfl, rfl, rfl,
    day_average_round_trip urlsABC (fun _ => scenarioDay) 0 freshWorld _ _ rfl rfl⟩

/-- C6: for a date key with no record in the store the `/daycnt` handler answers
the sentinel `-2`; for every stored 64-bit value `v` it answers the decimal digits
of `v`, which never equal the sentinel, in particular not for a stored `0`. -/
theorem unset_date_answers_sentinel (db : DB) (vars : List (String × String)) (day : String)
    (hvar : vars.lookup "day" = some day) (hnone : ∀ v, (day, v) ∉ db.entries) :
    dayCntHandler db vars = .ok (sprintInt (-2)) ∧
    sprintInt (-2) = "-2" ∧
    (∀ (db2 : DB) (v : Nat) (bs : Bytes), v < 2 ^ 64 → PutUint64 (makeBytes 8) v = .ok bs →
      db2.Get day = .ok bs →
      dayCntHandler db2 vars = .ok (sprintU64 v) ∧ sprintU64 v ≠ sprintInt (-2)) ∧
    sprintU64 0 ≠ sprintInt (-2) := by
  refine ⟨?_, rfl, ?_, sprintU64_ne_sentinel 0⟩
  · unfold dayCntHandler
    simp only [hvar]
    rw [DB.Get_absent db day hnone]
  · intro db2 v bs hv hbs hget
    refine ⟨?_, sprintU64_ne_sentinel v⟩
    have hu := Uint64_PutUint64 v hv bs hbs
    unfold dayCntHandler
    simp only [hvar, hget, hu]

/-- Witness for C6 : the empty store and the key `2024-3-9`. -/
theorem unset_date_answers_sentinel_witness :
    List.lookup "day" [("day", "2024-3-9")] = some "2024-3-9" ∧
    (∀ v, ("2024-3-9", v) ∉ freshWorld.db.entries) ∧
    dayCntHandler freshWorld.db [("day", "2024-3-9")] = .ok (sprintInt (-2)) ∧
    sprintInt (-2) = "-2" ∧
    (∀ (db2 : DB) (v : Nat) (bs : Bytes), v < 2 ^ 64 → PutUint64 (makeBytes 8) v = .ok bs →
      db2.Get "2024-3-9" = .ok bs →
      dayCntHandler db2 [("day", "2024-3-9")] = .ok (sprintU64 v) ∧
        sprintU64 v ≠ sprintInt (-2)) ∧
    sprintU64 0 ≠ sprintInt (-2) :=
  ⟨rfl, fun _ h => by simp [freshWorld] at h,
    unset_date_answers_sentinel freshWorld.db [("day", "2024-3-9")] "2024-3-9" rfl
      (fun _ h => by simp [freshWorld] at h)⟩

/-- C7, on the code: with a three-byte record under the requested key, `Get`
succeeds and `binary.BigEndian.Uint64` then indexes `num[7]`: the handler panics
instead of answering a value or a sentinel. -/
theorem short_record_panics :
    shortRecordDB.Get "2024-3-9" = .ok [0, 0, 37] ∧
    Uint64 [0, 0, 37] = .error .indexOutOfRange ∧
    dayCntHandler shortRecordDB [("day", "2024-3-9")] = .error .indexOutOfRange :=
  ⟨rfl, rfl, rfl⟩

end EvaDashboard
